import Mathlib

/-!
Shallow embedding of the GatesharkTools cheat-instruction validator
(`src/check/mod.rs`) together with the parts of `crate::cheat`, the
`checks` module and the `errors` catalog it uses, and proofs of the
specification's claims about the validation pipeline.
-/

namespace Gateshark

/-- Modelled from the spec: the `Opcode` enumeration lives in `crate::cheat`,
which is not under `src/`; its closed variant set is fixed by the spec's data
model and is exactly the set matched exhaustively (no fallthrough arm) by
`get_checker` in `src/check/mod.rs`. -/
inductive Opcode
  | WriteWord | WriteShort | WriteByte
  | Reset | EndCond | SetOffsetPtr
  | Repeat | EndRepeat | SetOffsetImmediate | AddToDxData | SetDxData
  | CopyDxByte | CopyDxShort | CopyDxWord
  | LoadDxByte | LoadDxShort | LoadDxWord
  | AddOffset | BtnCode
  | EqWord | LtWord | GtWord | NeWord
  | PatchCode | MemoryCopy
  | EqShort | LtShort | GtShort | NeShort
  deriving DecidableEq

/-- The three-valued outcome type of `src/check/mod.rs` (`enum CheckResult`):
`Pass`, `Warning(String)`, or `Error(usize, String)`. -/
inductive CheckResult
  | Pass
  | Warning (msg : String)
  | Error (code : Nat) (msg : String)
  deriving DecidableEq

/-- `CheckResult::Error(_, _)` pattern test used by the aggregator's filter. -/
def CheckResult.isError : CheckResult → Bool
  | .Error _ _ => true
  | _ => false

/-- `CheckResult::Warning(_)` pattern test used by the aggregator's filter. -/
def CheckResult.isWarning : CheckResult → Bool
  | .Warning _ => true
  | _ => false

/-- `struct DetailedResult` of `src/check/mod.rs`: a `CheckResult` tagged with
the cheat line it originated from. -/
structure DetailedResult where
  res_type : CheckResult
  cheat_line : Nat
  deriving DecidableEq

/-- The `Checker` trait of `src/check/mod.rs`: a rule
`check(&self, instr: Opcode, block_a: &str, block_b: &str) -> CheckResult`.
A boxed trait object is embedded as a plain function value. -/
def Checker := Opcode → String → String → CheckResult

/-- `AlwaysPassChecker` of `src/check/mod.rs`: returns `Pass` on every input. -/
def AlwaysPassChecker : Checker := fun _ _ _ => CheckResult.Pass

/-- Modelled from the spec: `checks::WriteChecker` lives in the `checks`
module, which is not under `src/`; the spec fixes only its contract (pure,
single `CheckResult` — the exact write-size rule is external domain knowledge
per the spec's open question), and no claim depends on its verdicts. -/
def WriteChecker : Checker := fun _ _ _ => CheckResult.Pass

/-- Modelled from the spec: `checks::ResetChecker` lives in the `checks`
module, which is not under `src/`; the spec fixes only its contract (pure,
single `CheckResult`), and no claim depends on its verdicts. -/
def ResetChecker : Checker := fun _ _ _ => CheckResult.Pass

/-- Modelled from the spec: `checks::ZeroAfterOpcodeChecker` lives in the
`checks` module, which is not under `src/`; the spec fixes only its contract
(pure, single `CheckResult`), and no claim depends on its verdicts. -/
def ZeroAfterOpcodeChecker : Checker := fun _ _ _ => CheckResult.Pass

/-- `get_checker` of `src/check/mod.rs`: the rule registry, an exhaustive
match from `Opcode` to a boxed `Checker` with no fallthrough arm. -/
def get_checker : Opcode → Checker
  | .WriteWord | .WriteShort | .WriteByte => WriteChecker
  | .Reset | .EndCond | .SetOffsetPtr => ResetChecker
  | .Repeat | .EndRepeat | .SetOffsetImmediate | .AddToDxData | .SetDxData
  | .CopyDxByte | .CopyDxShort | .CopyDxWord
  | .LoadDxByte | .LoadDxShort | .LoadDxWord | .AddOffset | .BtnCode =>
      ZeroAfterOpcodeChecker
  | .EqWord | .LtWord | .GtWord | .NeWord | .PatchCode | .MemoryCopy
  | .EqShort | .LtShort | .GtShort | .NeShort => AlwaysPassChecker

/-- Modelled from the spec: `struct Instruction` lives in `crate::cheat`,
which is not under `src/`; the spec and the fields read by `src/check/mod.rs`
fix it as an opcode, two data-block strings, and the rule bound at
construction time. -/
structure Instruction where
  opcode : Opcode
  block_a : String
  block_b : String
  checker : Checker

/-- Modelled from the spec: `struct Descriptor` lives in `crate::cheat`,
which is not under `src/`; the spec fixes it as the cheat's name. -/
structure Descriptor where
  name : String

/-- Modelled from the spec: `struct Cheat` lives in `crate::cheat`, which is
not under `src/`; the spec fixes it as a descriptor plus an ordered sequence
of instructions. -/
structure Cheat where
  descriptor : Descriptor
  instructions : List Instruction

/-- Modelled from the spec: the `errors` module is not under `src/`; the spec
says each structural error carries a small integer code and a message, with
the concrete catalog external. Distinct codes and the spec's identifier
phrases are used. Wrong-length of block A. -/
def WRONG_LENGTH_A : Nat × String := (1, "wrong length, block A")

/-- Modelled from the spec: wrong-length of block B (see `WRONG_LENGTH_A`). -/
def WRONG_LENGTH_B : Nat × String := (2, "wrong length, block B")

/-- Modelled from the spec: invalid hex in block A (see `WRONG_LENGTH_A`). -/
def INVALID_HEX_A : Nat × String := (3, "invalid hex, block A")

/-- Modelled from the spec: invalid hex in block B (see `WRONG_LENGTH_A`). -/
def INVALID_HEX_B : Nat × String := (4, "invalid hex, block B")

/-- Rust's `String::len`: the number of UTF-8 bytes of the string. -/
def rustLen (s : String) : Nat := (s.data.map Char.utf8Size).sum

/-- Rust's `char::to_digit(16)`: the value of a case-insensitive hexadecimal
digit, `none` for any other character. -/
def to_digit_16 (c : Char) : Option Nat :=
  if '0' ≤ c ∧ c ≤ '9' then some (c.toNat - '0'.toNat)
  else if 'a' ≤ c ∧ c ≤ 'f' then some (c.toNat - 'a'.toNat + 10)
  else if 'A' ≤ c ∧ c ≤ 'F' then some (c.toNat - 'A'.toNat + 10)
  else none

/-- The error kinds of Rust's `core::num::IntErrorKind` reachable from
`i64::from_str_radix`. -/
inductive IntErrorKind
  | empty | invalidDigit | posOverflow | negOverflow
  deriving DecidableEq

/-- `i64::MAX` as an integer. -/
def i64MAX : Int := 2 ^ 63 - 1

/-- `i64::MIN` as an integer. -/
def i64MIN : Int := -(2 ^ 63)

/-- The digit-accumulation loop of Rust's `i64::from_str_radix(_, 16)`:
starting from `acc`, each digit multiplies by 16 and adds (for a positive
parse) or subtracts (for a negative parse), failing on a non-digit or when
the checked arithmetic leaves the `i64` range. -/
def from_str_radix_digits (neg : Bool) : List Char → Int → Except IntErrorKind Int
  | [], acc => .ok acc
  | c :: cs, acc =>
    match to_digit_16 c with
    | none => .error .invalidDigit
    | some d =>
      if neg then
        if acc * 16 - d < i64MIN then .error .negOverflow
        else from_str_radix_digits neg cs (acc * 16 - d)
      else
        if i64MAX < acc * 16 + d then .error .posOverflow
        else from_str_radix_digits neg cs (acc * 16 + d)

/-- Rust's `i64::from_str_radix(s, 16)`: empty input is an error; a single
leading `+` or `-` is consumed as the sign (a bare sign is an error); the
remaining characters are accumulated by `from_str_radix_digits`. -/
def i64_from_str_radix_16 (s : String) : Except IntErrorKind Int :=
  match s.data with
  | [] => .error .empty
  | c :: cs =>
    if c = '+' then
      if cs.isEmpty then .error .invalidDigit
      else from_str_radix_digits false cs 0
    else if c = '-' then
      if cs.isEmpty then .error .invalidDigit
      else from_str_radix_digits true cs 0
    else from_str_radix_digits false (c :: cs) 0

/-- Rust's `Result::is_err`. -/
def isErr : Except IntErrorKind Int → Bool
  | .error _ => true
  | .ok _ => false

/-- `check_instruction_pre` of `src/check/mod.rs`: the four structural
pre-checks, pushed in source order (length A, length B, hex A, hex B), each
guarded only by its own condition. -/
def check_instruction_pre (instruction : Instruction) : List CheckResult :=
  (if rustLen instruction.block_a ≠ 8 then
    [CheckResult.Error WRONG_LENGTH_A.1 WRONG_LENGTH_A.2] else []) ++
  (if rustLen instruction.block_b ≠ 8 then
    [CheckResult.Error WRONG_LENGTH_B.1 WRONG_LENGTH_B.2] else []) ++
  (if isErr (i64_from_str_radix_16 instruction.block_a) then
    [CheckResult.Error INVALID_HEX_A.1 INVALID_HEX_A.2] else []) ++
  (if isErr (i64_from_str_radix_16 instruction.block_b) then
    [CheckResult.Error INVALID_HEX_B.1 INVALID_HEX_B.2] else [])

/-- The result of one instruction inside `check_cheat`'s loop: the pre-check
results followed by the single result of the instruction's bound rule. -/
def instruction_results (instr : Instruction) : List CheckResult :=
  check_instruction_pre instr ++
    [instr.checker instr.opcode instr.block_a instr.block_b]

/-- The detail-collecting loop of `check_cheat`: instructions in sequence
order, each `CheckResult` wrapped in a `DetailedResult` carrying the current
line counter. -/
def check_cheat_details : Nat → List Instruction → List DetailedResult
  | _, [] => []
  | line, instr :: rest =>
    (instruction_results instr).map (fun res => DetailedResult.mk res line) ++
      check_cheat_details (line + 1) rest

/-- The worst-case reduction at the end of `check_cheat`: `Error(0, ...)` when
the filter for `Error` details counts more than zero, else `Warning(...)` when
the filter for `Warning` details counts more than zero, else `Pass`. -/
def final_res (results : List DetailedResult) : CheckResult :=
  if 0 < (results.filter (fun r => r.res_type.isError)).length then
    CheckResult.Error 0 "Instruction compiled with errors."
  else if 0 < (results.filter (fun r => r.res_type.isWarning)).length then
    CheckResult.Warning "Instruction compiled with warnings."
  else CheckResult.Pass

/-- `check_cheat` of `src/check/mod.rs`: collects every instruction's details
in sequence order, then reduces them to one overall verdict. -/
def check_cheat (cheat : Cheat) : CheckResult × List DetailedResult :=
  let results := check_cheat_details 0 cheat.instructions
  (final_res results, results)

/-! ### Helper lemmas about the aggregation step -/

theorem length_filter_pos_iff {α : Type} (p : α → Bool) (l : List α) :
    0 < (l.filter p).length ↔ ∃ a ∈ l, p a = true := by
  induction l with
  | nil => simp
  | cons x xs ih => by_cases h : p x <;> simp [List.filter_cons, h, ih]

theorem check_cheat_snd (cheat : Cheat) :
    (check_cheat cheat).2 = check_cheat_details 0 cheat.instructions := rfl

theorem check_cheat_fst (cheat : Cheat) :
    (check_cheat cheat).1 = final_res (check_cheat_details 0 cheat.instructions) := rfl

theorem final_res_eq (results : List DetailedResult) :
    final_res results =
      if ∃ d ∈ results, d.res_type.isError = true then
        CheckResult.Error 0 "Instruction compiled with errors."
      else if ∃ d ∈ results, d.res_type.isWarning = true then
        CheckResult.Warning "Instruction compiled with warnings."
      else CheckResult.Pass := by
  unfold final_res
  rw [if_congr (length_filter_pos_iff _ _) rfl
      (if_congr (length_filter_pos_iff _ _) rfl rfl)]

/-! ### Helper lemmas about the detail-collecting loop -/

theorem check_cheat_details_enumFrom (n : Nat) (l : List Instruction) :
    check_cheat_details n l =
      ((l.enumFrom n).map (fun p =>
        (instruction_results p.2).map (fun r => DetailedResult.mk r p.1))).flatten := by
  induction l generalizing n with
  | nil => rfl
  | cons x xs ih => simp [check_cheat_details, List.enumFrom, ih]

theorem check_cheat_details_length (n : Nat) (l : List Instruction) :
    (check_cheat_details n l).length =
      l.length + (l.map (fun i => (check_instruction_pre i).length)).sum := by
  induction l generalizing n with
  | nil => rfl
  | cons x xs ih =>
    simp [check_cheat_details, instruction_results, ih]
    omega

theorem mem_check_cheat_details_of_get (l : List Instruction) (n i : Nat)
    (instr : Instruction) (h : l.get? i = some instr) (r : CheckResult)
    (hr : r ∈ instruction_results instr) :
    DetailedResult.mk r (n + i) ∈ check_cheat_details n l := by
  induction l generalizing n i with
  | nil => simp at h
  | cons x xs ih =>
    cases i with
    | zero =>
      simp only [List.get?] at h
      cases h
      exact List.mem_append_left _ (List.mem_map_of_mem _ hr)
    | succ j =>
      simp only [List.get?] at h
      have hmem := ih (n + 1) j h
      have : n + (j + 1) = (n + 1) + j := by omega
      rw [this]
      exact List.mem_append_right _ hmem

/-! ### Helper lemmas about the structural pre-checks -/

theorem pre_mem_wrong_length_a (instr : Instruction) :
    CheckResult.Error WRONG_LENGTH_A.1 WRONG_LENGTH_A.2 ∈ check_instruction_pre instr ↔
      rustLen instr.block_a ≠ 8 := by
  unfold check_instruction_pre
  split_ifs <;>
    simp_all [WRONG_LENGTH_A, WRONG_LENGTH_B, INVALID_HEX_A, INVALID_HEX_B]

theorem pre_mem_wrong_length_b (instr : Instruction) :
    CheckResult.Error WRONG_LENGTH_B.1 WRONG_LENGTH_B.2 ∈ check_instruction_pre instr ↔
      rustLen instr.block_b ≠ 8 := by
  unfold check_instruction_pre
  split_ifs <;>
    simp_all [WRONG_LENGTH_A, WRONG_LENGTH_B, INVALID_HEX_A, INVALID_HEX_B]

theorem pre_mem_invalid_hex_a (instr : Instruction) :
    CheckResult.Error INVALID_HEX_A.1 INVALID_HEX_A.2 ∈ check_instruction_pre instr ↔
      isErr (i64_from_str_radix_16 instr.block_a) = true := by
  unfold check_instruction_pre
  split_ifs <;>
    simp_all [WRONG_LENGTH_A, WRONG_LENGTH_B, INVALID_HEX_A, INVALID_HEX_B]

theorem pre_mem_invalid_hex_b (instr : Instruction) :
    CheckResult.Error INVALID_HEX_B.1 INVALID_HEX_B.2 ∈ check_instruction_pre instr ↔
      isErr (i64_from_str_radix_16 instr.block_b) = true := by
  unfold check_instruction_pre
  split_ifs <;>
    simp_all [WRONG_LENGTH_A, WRONG_LENGTH_B, INVALID_HEX_A, INVALID_HEX_B]

theorem pre_length_eq (instr : Instruction) :
    (check_instruction_pre instr).length =
      (if rustLen instr.block_a ≠ 8 then 1 else 0) +
      (if rustLen instr.block_b ≠ 8 then 1 else 0) +
      (if isErr (i64_from_str_radix_16 instr.block_a) then 1 else 0) +
      (if isErr (i64_from_str_radix_16 instr.block_b) then 1 else 0) := by
  unfold check_instruction_pre
  split_ifs <;> simp

theorem pre_all_error (instr : Instruction) (r : CheckResult)
    (hr : r ∈ check_instruction_pre instr) : r.isError = true := by
  unfold check_instruction_pre at hr
  simp only [List.mem_append] at hr
  have key : ∀ (c : Prop) [Decidable c] (cd : Nat) (m : String),
      r ∈ (if c then [CheckResult.Error cd m] else []) → r.isError = true := by
    intro c _ cd m h
    split at h
    · rw [List.mem_singleton.mp h]; rfl
    · simp at h
  rcases hr with ((h | h) | h) | h <;> exact key _ _ _ h

/-! ### Characterisation of `i64::from_str_radix(_, 16)` failure -/

/-- The integer accumulated by the positive digit loop, counting a non-digit
as 0 (only used under the guard that every character is a digit). -/
def intValFrom (acc : Int) (l : List Char) : Int :=
  l.foldl (fun a c => a * 16 + (((to_digit_16 c).getD 0 : Nat) : Int)) acc

/-- The integer accumulated by the negative digit loop. -/
def intValNegFrom (acc : Int) (l : List Char) : Int :=
  l.foldl (fun a c => a * 16 - (((to_digit_16 c).getD 0 : Nat) : Int)) acc

/-- The magnitude denoted by a list of hexadecimal digits. -/
def hexValNat (l : List Char) : Nat :=
  l.foldl (fun a c => a * 16 + (to_digit_16 c).getD 0) 0

theorem intValFrom_nil (acc : Int) : intValFrom acc [] = acc := rfl

theorem intValFrom_cons (acc : Int) (c : Char) (l : List Char) :
    intValFrom acc (c :: l) =
      intValFrom (acc * 16 + (((to_digit_16 c).getD 0 : Nat) : Int)) l := rfl

theorem intValNegFrom_nil (acc : Int) : intValNegFrom acc [] = acc := rfl

theorem intValNegFrom_cons (acc : Int) (c : Char) (l : List Char) :
    intValNegFrom acc (c :: l) =
      intValNegFrom (acc * 16 - (((to_digit_16 c).getD 0 : Nat) : Int)) l := rfl

theorem le_intValFrom (l : List Char) (acc : Int) (h : 0 ≤ acc) :
    acc ≤ intValFrom acc l := by
  induction l generalizing acc with
  | nil => simp [intValFrom_nil]
  | cons c cs ih =>
    rw [intValFrom_cons]
    have hd : (0 : Int) ≤ (((to_digit_16 c).getD 0 : Nat) : Int) := Int.ofNat_nonneg _
    have h1 : acc ≤ acc * 16 + (((to_digit_16 c).getD 0 : Nat) : Int) := by omega
    exact le_trans h1 (ih _ (by omega))

theorem intValNegFrom_le (l : List Char) (acc : Int) (h : acc ≤ 0) :
    intValNegFrom acc l ≤ acc := by
  induction l generalizing acc with
  | nil => simp [intValNegFrom_nil]
  | cons c cs ih =>
    rw [intValNegFrom_cons]
    have hd : (0 : Int) ≤ (((to_digit_16 c).getD 0 : Nat) : Int) := Int.ofNat_nonneg _
    have h1 : acc * 16 - (((to_digit_16 c).getD 0 : Nat) : Int) ≤ acc := by omega
    exact le_trans (ih _ (by omega)) h1

theorem isErr_digits_pos (l : List Char) (acc : Int) (h0 : 0 ≤ acc)
    (hM : acc ≤ i64MAX) :
    isErr (from_str_radix_digits false l acc) = true ↔
      (∃ c ∈ l, to_digit_16 c = none) ∨ i64MAX < intValFrom acc l := by
  induction l generalizing acc with
  | nil =>
    simp only [from_str_radix_digits, isErr, intValFrom_nil]
    constructor
    · intro h; cases h
    · rintro (⟨c, hc, _⟩ | h)
      · cases hc
      · omega
  | cons c cs ih =>
    cases hd : to_digit_16 c with
    | none =>
      have hred : from_str_radix_digits false (c :: cs) acc =
          Except.error IntErrorKind.invalidDigit := by
        unfold from_str_radix_digits; rw [hd]
      rw [hred]
      constructor
      · intro _; exact Or.inl ⟨c, List.mem_cons_self c cs, hd⟩
      · intro _; rfl
    | some d =>
      have hred : from_str_radix_digits false (c :: cs) acc =
          if i64MAX < acc * 16 + (d : Int) then Except.error IntErrorKind.posOverflow
          else from_str_radix_digits false cs (acc * 16 + (d : Int)) := by
        conv_lhs => unfold from_str_radix_digits
        rw [hd]
        rfl
      have hstep : intValFrom acc (c :: cs) = intValFrom (acc * 16 + (d : Int)) cs := by
        rw [intValFrom_cons, hd]; rfl
      rw [hred, hstep]
      by_cases hov : i64MAX < acc * 16 + (d : Int)
      · rw [if_pos hov]
        constructor
        · intro _
          refine Or.inr ?_
          calc i64MAX < acc * 16 + (d : Int) := hov
            _ ≤ intValFrom (acc * 16 + (d : Int)) cs :=
              le_intValFrom cs _ (by omega)
        · intro _; rfl
      · rw [if_neg hov]
        rw [ih (acc * 16 + (d : Int)) (by omega) (by omega)]
        constructor
        · rintro (⟨x, hx, hnone⟩ | h)
          · exact Or.inl ⟨x, List.mem_cons_of_mem c hx, hnone⟩
          · exact Or.inr h
        · rintro (⟨x, hx, hnone⟩ | h)
          · rcases List.mem_cons.mp hx with rfl | hx
            · rw [hd] at hnone; cases hnone
            · exact Or.inl ⟨x, hx, hnone⟩
          · exact Or.inr h

theorem isErr_digits_neg (l : List Char) (acc : Int) (h0 : acc ≤ 0)
    (hM : i64MIN ≤ acc) :
    isErr (from_str_radix_digits true l acc) = true ↔
      (∃ c ∈ l, to_digit_16 c = none) ∨ intValNegFrom acc l < i64MIN := by
  induction l generalizing acc with
  | nil =>
    simp only [from_str_radix_digits, isErr, intValNegFrom_nil]
    constructor
    · intro h; cases h
    · rintro (⟨c, hc, _⟩ | h)
      · cases hc
      · omega
  | cons c cs ih =>
    cases hd : to_digit_16 c with
    | none =>
      have hred : from_str_radix_digits true (c :: cs) acc =
          Except.error IntErrorKind.invalidDigit := by
        unfold from_str_radix_digits; rw [hd]
      rw [hred]
      constructor
      · intro _; exact Or.inl ⟨c, List.mem_cons_self c cs, hd⟩
      · intro _; rfl
    | some d =>
      have hred : from_str_radix_digits true (c :: cs) acc =
          if acc * 16 - (d : Int) < i64MIN then Except.error IntErrorKind.negOverflow
          else from_str_radix_digits true cs (acc * 16 - (d : Int)) := by
        conv_lhs => unfold from_str_radix_digits
        rw [hd]
        rfl
      have hstep : intValNegFrom acc (c :: cs) = intValNegFrom (acc * 16 - (d : Int)) cs := by
        rw [intValNegFrom_cons, hd]; rfl
      rw [hred, hstep]
      by_cases hov : acc * 16 - (d : Int) < i64MIN
      · rw [if_pos hov]
        constructor
        · intro _
          refine Or.inr ?_
          calc intValNegFrom (acc * 16 - (d : Int)) cs ≤ acc * 16 - (d : Int) :=
                intValNegFrom_le cs _ (by omega)
            _ < i64MIN := hov
        · intro _; rfl
      · rw [if_neg hov]
        rw [ih (acc * 16 - (d : Int)) (by omega) (by omega)]
        constructor
        · rintro (⟨x, hx, hnone⟩ | h)
          · exact Or.inl ⟨x, List.mem_cons_of_mem c hx, hnone⟩
          · exact Or.inr h
        · rintro (⟨x, hx, hnone⟩ | h)
          · rcases List.mem_cons.mp hx with rfl | hx
            · rw [hd] at hnone; cases hnone
            · exact Or.inl ⟨x, hx, hnone⟩
          · exact Or.inr h

theorem intValFrom_cast (l : List Char) (n : Nat) :
    intValFrom (n : Int) l =
      ((l.foldl (fun a c => a * 16 + (to_digit_16 c).getD 0) n : Nat) : Int) := by
  induction l generalizing n with
  | nil => rfl
  | cons c cs ih =>
    rw [intValFrom_cons, List.foldl_cons]
    have : ((n : Int) * 16 + (((to_digit_16 c).getD 0 : Nat) : Int)) =
        ((n * 16 + (to_digit_16 c).getD 0 : Nat) : Int) := by push_cast; ring
    rw [this, ih]

theorem intValNegFrom_cast (l : List Char) (n : Nat) :
    intValNegFrom (-(n : Int)) l =
      -((l.foldl (fun a c => a * 16 + (to_digit_16 c).getD 0) n : Nat) : Int) := by
  induction l generalizing n with
  | nil => rfl
  | cons c cs ih =>
    rw [intValNegFrom_cons, List.foldl_cons]
    have : (-(n : Int)) * 16 - (((to_digit_16 c).getD 0 : Nat) : Int) =
        -((n * 16 + (to_digit_16 c).getD 0 : Nat) : Int) := by push_cast; ring
    rw [this, ih]

theorem intValFrom_zero (l : List Char) :
    intValFrom 0 l = ((hexValNat l : Nat) : Int) := by
  have := intValFrom_cast l 0
  simpa [hexValNat] using this

theorem intValNegFrom_zero (l : List Char) :
    intValNegFrom 0 l = -((hexValNat l : Nat) : Int) := by
  have := intValNegFrom_cast l 0
  simpa [hexValNat] using this

/-- The failure condition of a base-16 `i64` parse, stated in the amended
claim's words: the string is empty, or its digit part (the whole string, or
the rest after one optional leading `+` or `-` sign) is empty, contains a
character that is not a case-insensitive hexadecimal digit, or denotes a
magnitude outside the `i64` range (above `2^63 - 1`, or above `2^63` when
negated). -/
def failsI64Hex (s : String) : Bool :=
  match s.data with
  | [] => true
  | c :: cs =>
    let digits := if c = '+' || c = '-' then cs else c :: cs
    digits.isEmpty ||
    digits.any (fun d => (to_digit_16 d).isNone) ||
    decide ((if c = '-' then 2 ^ 63 else 2 ^ 63 - 1 : Nat) < hexValNat digits)

theorem i64MAX_lt_cast (v : Nat) : i64MAX < (v : Int) ↔ 2 ^ 63 - 1 < v := by
  have h1 : i64MAX = ((2 ^ 63 - 1 : Nat) : Int) := by
    unfold i64MAX; norm_num
  rw [h1, Int.ofNat_lt]

theorem cast_lt_i64MIN (v : Nat) : -(v : Int) < i64MIN ↔ 2 ^ 63 < v := by
  have h1 : i64MIN = -((2 ^ 63 : Nat) : Int) := by
    unfold i64MIN; norm_num
  rw [h1, neg_lt_neg_iff, Int.ofNat_lt]

theorem any_isNone_iff (l : List Char) :
    (l.any (fun d => (to_digit_16 d).isNone)) = true ↔
      ∃ c ∈ l, to_digit_16 c = none := by
  simp [List.any_eq_true, Option.isNone_iff_eq_none]

/-- `i64::from_str_radix(s, 16)` fails exactly when `failsI64Hex s` holds. -/
theorem isErr_iff_failsI64Hex (s : String) :
    isErr (i64_from_str_radix_16 s) = failsI64Hex s := by
  rw [Bool.eq_iff_iff]
  unfold i64_from_str_radix_16 failsI64Hex
  cases hdata : s.data with
  | nil => simp [isErr]
  | cons c cs =>
    by_cases hplus : c = '+'
    · subst hplus
      cases cs with
      | nil => simp [isErr]
      | cons x xs =>
        have hpos := isErr_digits_pos (x :: xs) 0 (le_refl 0) (by unfold i64MAX; norm_num)
        rw [intValFrom_zero, i64MAX_lt_cast] at hpos
        simp only [List.isEmpty_cons, if_pos rfl, if_true, ite_true, Bool.false_eq_true,
          if_false, ite_false]
        rw [hpos]
        norm_num [List.mem_cons, show ¬(('+' : Char) = '-') by decide]
    · by_cases hminus : c = '-'
      · subst hminus
        cases cs with
        | nil => simp [isErr]
        | cons x xs =>
          have hneg := isErr_digits_neg (x :: xs) 0 (le_refl 0) (by unfold i64MIN; norm_num)
          rw [intValNegFrom_zero, cast_lt_i64MIN] at hneg
          simp only [List.isEmpty_cons, if_pos rfl, if_true, ite_true,
            if_neg (show ¬(('-' : Char) = '+') by decide), Bool.false_eq_true,
            if_false, ite_false]
          rw [hneg]
          norm_num [List.mem_cons]
      · simp only [if_neg hplus, if_neg hminus]
        have hpos := isErr_digits_pos (c :: cs) 0 (le_refl 0) (by unfold i64MAX; norm_num)
        rw [intValFrom_zero, i64MAX_lt_cast] at hpos
        rw [hpos]
        simp only [decide_eq_false hplus, decide_eq_false hminus, Bool.or_self,
          Bool.false_eq_true, if_false, List.isEmpty_cons]
        norm_num [List.mem_cons, hminus]

/-! ### Further helper lemmas -/

theorem final_res_error_of_mem (results : List DetailedResult)
    (h : ∃ d ∈ results, d.res_type.isError = true) :
    final_res results = CheckResult.Error 0 "Instruction compiled with errors." := by
  rw [final_res_eq, if_pos h]

theorem detail_of_get (cheat : Cheat) (i : Nat) (instr : Instruction)
    (hget : cheat.instructions.get? i = some instr) (r : CheckResult)
    (hr : r ∈ instruction_results instr) :
    DetailedResult.mk r i ∈ (check_cheat cheat).2 := by
  have h := mem_check_cheat_details_of_get cheat.instructions 0 i instr hget r hr
  rw [Nat.zero_add] at h
  exact h

theorem pre_length_le_four (instr : Instruction) :
    (check_instruction_pre instr).length ≤ 4 := by
  rw [pre_length_eq]
  split_ifs <;> omega

theorem pre_length_sum_le (l : List Instruction) :
    (l.map (fun i => (check_instruction_pre i).length)).sum ≤ 4 * l.length := by
  induction l with
  | nil => simp
  | cons x xs ih =>
    simp only [List.map_cons, List.sum_cons, List.length_cons]
    have := pre_length_le_four x
    omega

/-! ### The claims -/

/-- C1: for every cheat, the overall result of `check_cheat` is
`Error(0, "Instruction compiled with errors.")` exactly when some detail is an
`Error`; otherwise it is `Warning("Instruction compiled with warnings.")`
exactly when some detail is a `Warning`; otherwise it is `Pass`. -/
theorem check_overall_worst_case (cheat : Cheat) :
    (check_cheat cheat).1 =
      if ∃ d ∈ (check_cheat cheat).2, d.res_type.isError = true then
        CheckResult.Error 0 "Instruction compiled with errors."
      else if ∃ d ∈ (check_cheat cheat).2, d.res_type.isWarning = true then
        CheckResult.Warning "Instruction compiled with warnings."
      else CheckResult.Pass :=
  final_res_eq ((check_cheat cheat).2)

/-- C2: a cheat with an empty instruction sequence validates as
`(Pass, empty details)`. -/
theorem check_cheat_empty (cheat : Cheat) (h : cheat.instructions = []) :
    check_cheat cheat = (CheckResult.Pass, []) := by
  unfold check_cheat
  rw [h]
  rfl

/-- Witness for C2 at a concrete empty cheat. -/
theorem check_cheat_empty_witness :
    check_cheat ⟨⟨"[Test Cheat]"⟩, []⟩ = (CheckResult.Pass, []) :=
  check_cheat_empty ⟨⟨"[Test Cheat]"⟩, []⟩ rfl

/-- Counterexample to C3 as stated: the block `"-1234567"` contains the
character `-`, which is not a case-insensitive hexadecimal digit, yet
`i64::from_str_radix` parses it successfully (a single leading sign is
allowed), so the pre-checker emits no `invalid hex, block A` error — the
"exactly when the block contains a non-hex character" criterion is wrong. -/
theorem invalid_hex_not_char_criterion :
    (∃ c ∈ ("-1234567" : String).data, to_digit_16 c = none) ∧
    isErr (i64_from_str_radix_16 "-1234567") = false ∧
    CheckResult.Error INVALID_HEX_A.1 INVALID_HEX_A.2 ∉
      check_instruction_pre
        ⟨Opcode.WriteWord, "-1234567", "00000000", AlwaysPassChecker⟩ := by
  refine ⟨⟨'-', ?_, ?_⟩, ?_, ?_⟩ <;> decide

/-- C3 (amended): the pre-checker emits `invalid hex, block A` (resp. B)
exactly when the block fails the base-16 `i64` parse, which happens exactly
when the block is empty, or its digit part (after one optional leading `+` or
`-`) is empty, contains a character that is not a case-insensitive
hexadecimal digit, or denotes a magnitude outside the `i64` range. -/
theorem invalid_hex_error_iff (instr : Instruction) :
    (CheckResult.Error INVALID_HEX_A.1 INVALID_HEX_A.2 ∈ check_instruction_pre instr ↔
      failsI64Hex instr.block_a = true) ∧
    (CheckResult.Error INVALID_HEX_B.1 INVALID_HEX_B.2 ∈ check_instruction_pre instr ↔
      failsI64Hex instr.block_b = true) := by
  constructor
  · rw [pre_mem_invalid_hex_a, isErr_iff_failsI64Hex]
  · rw [pre_mem_invalid_hex_b, isErr_iff_failsI64Hex]

/-- Witness for C3 (amended) at a concrete malformed block. -/
theorem invalid_hex_error_iff_witness :
    CheckResult.Error INVALID_HEX_A.1 INVALID_HEX_A.2 ∈
      check_instruction_pre
        ⟨Opcode.WriteWord, "0GZA7F9C", "00000000", AlwaysPassChecker⟩ :=
  ((invalid_hex_error_iff
    ⟨Opcode.WriteWord, "0GZA7F9C", "00000000", AlwaysPassChecker⟩).1).mpr (by decide)

/-- C4: the four structural pre-checks are evaluated unconditionally and
independently — each error's presence is equivalent to its own condition
alone, the number of pre-check details is the number of failing conditions
(at most four), and the instruction additionally contributes exactly one
opcode-rule detail. -/
theorem pre_checks_independent (instr : Instruction) :
    (CheckResult.Error WRONG_LENGTH_A.1 WRONG_LENGTH_A.2 ∈ check_instruction_pre instr ↔
      rustLen instr.block_a ≠ 8) ∧
    (CheckResult.Error WRONG_LENGTH_B.1 WRONG_LENGTH_B.2 ∈ check_instruction_pre instr ↔
      rustLen instr.block_b ≠ 8) ∧
    (CheckResult.Error INVALID_HEX_A.1 INVALID_HEX_A.2 ∈ check_instruction_pre instr ↔
      isErr (i64_from_str_radix_16 instr.block_a) = true) ∧
    (CheckResult.Error INVALID_HEX_B.1 INVALID_HEX_B.2 ∈ check_instruction_pre instr ↔
      isErr (i64_from_str_radix_16 instr.block_b) = true) ∧
    (check_instruction_pre instr).length =
      (if rustLen instr.block_a ≠ 8 then 1 else 0) +
      (if rustLen instr.block_b ≠ 8 then 1 else 0) +
      (if isErr (i64_from_str_radix_16 instr.block_a) then 1 else 0) +
      (if isErr (i64_from_str_radix_16 instr.block_b) then 1 else 0) ∧
    (check_instruction_pre instr).length ≤ 4 ∧
    (instruction_results instr).length = (check_instruction_pre instr).length + 1 := by
  refine ⟨pre_mem_wrong_length_a instr, pre_mem_wrong_length_b instr,
    pre_mem_invalid_hex_a instr, pre_mem_invalid_hex_b instr, pre_length_eq instr,
    pre_length_le_four instr, ?_⟩
  simp [instruction_results]

/-- Witness for C4 at an instruction failing all four pre-checks. -/
theorem pre_checks_independent_witness :
    (check_instruction_pre ⟨Opcode.WriteWord, "XYZ", "", AlwaysPassChecker⟩).length = 4 := by
  rw [(pre_checks_independent ⟨Opcode.WriteWord, "XYZ", "", AlwaysPassChecker⟩).2.2.2.2.1]
  decide

/-- C5: a cheat containing an instruction whose `block_a` or `block_b` has
length other than 8 gets at least one `Error` detail tagged with that
instruction's line, and an overall `Error` verdict. -/
theorem wrong_length_forces_error (cheat : Cheat) (i : Nat) (instr : Instruction)
    (hget : cheat.instructions.get? i = some instr)
    (hlen : rustLen instr.block_a ≠ 8 ∨ rustLen instr.block_b ≠ 8) :
    (∃ d ∈ (check_cheat cheat).2, d.cheat_line = i ∧ d.res_type.isError = true) ∧
    (check_cheat cheat).1 = CheckResult.Error 0 "Instruction compiled with errors." := by
  have hr : ∃ r, r ∈ check_instruction_pre instr ∧ r.isError = true := by
    rcases hlen with h | h
    · exact ⟨_, (pre_mem_wrong_length_a instr).mpr h, rfl⟩
    · exact ⟨_, (pre_mem_wrong_length_b instr).mpr h, rfl⟩
  obtain ⟨r, hrmem, hrerr⟩ := hr
  have hd : DetailedResult.mk r i ∈ (check_cheat cheat).2 :=
    detail_of_get cheat i instr hget r (List.mem_append_left _ hrmem)
  refine ⟨⟨⟨r, i⟩, hd, rfl, hrerr⟩, ?_⟩
  rw [check_cheat_fst]
  exact final_res_error_of_mem _ ⟨⟨r, i⟩, hd, hrerr⟩

/-- Witness for C5 at a concrete cheat whose single instruction has a
9-character `block_b`. -/
theorem wrong_length_forces_error_witness :
    (check_cheat ⟨⟨"[Test Cheat]"⟩,
      [⟨Opcode.WriteWord, "0AF2CD18", "CFF2AD4C1", get_checker Opcode.WriteWord⟩]⟩).1 =
      CheckResult.Error 0 "Instruction compiled with errors." :=
  (wrong_length_forces_error
    ⟨⟨"[Test Cheat]"⟩,
      [⟨Opcode.WriteWord, "0AF2CD18", "CFF2AD4C1", get_checker Opcode.WriteWord⟩]⟩
    0 ⟨Opcode.WriteWord, "0AF2CD18", "CFF2AD4C1", get_checker Opcode.WriteWord⟩
    rfl (Or.inr (by decide))).2

/-- The comparison/special opcode family of the spec: Eq/Lt/Gt/Ne word and
short, PatchCode and MemoryCopy. -/
def comparison_special_opcodes : List Opcode :=
  [.EqWord, .LtWord, .GtWord, .NeWord, .PatchCode, .MemoryCopy,
   .EqShort, .LtShort, .GtShort, .NeShort]

/-- C6: `get_checker` resolves every opcode to exactly one of the four rules
(no fallthrough), every comparison/special opcode is bound to
`AlwaysPassChecker`, and that rule returns `Pass` on all inputs. -/
theorem rule_registry_total :
    (∀ op : Opcode,
      get_checker op = WriteChecker ∨ get_checker op = ResetChecker ∨
      get_checker op = ZeroAfterOpcodeChecker ∨ get_checker op = AlwaysPassChecker) ∧
    (∀ op ∈ comparison_special_opcodes, get_checker op = AlwaysPassChecker) ∧
    (∀ op ∈ comparison_special_opcodes, ∀ (o : Opcode) (a b : String),
      get_checker op o a b = CheckResult.Pass) := by
  refine ⟨?_, ?_, ?_⟩
  · intro op; cases op <;> simp [get_checker]
  · intro op hop
    fin_cases hop <;> rfl
  · intro op hop o a b
    fin_cases hop <;> rfl

/-- Witness for C6 at a concrete comparison opcode and blocks. -/
theorem rule_registry_total_witness :
    get_checker Opcode.EqWord Opcode.EqWord "0AF2CD18" "CFF2AD4C" = CheckResult.Pass :=
  rule_registry_total.2.2 Opcode.EqWord (by decide) Opcode.EqWord "0AF2CD18" "CFF2AD4C"

/-- C7: the details sequence is exactly the instructions in order, each
contributing its pre-check results followed by its opcode rule's single
result, every one tagged with the instruction's zero-based index. -/
theorem details_in_order (cheat : Cheat) :
    (check_cheat cheat).2 =
      ((cheat.instructions.enum).map (fun p =>
        ((check_instruction_pre p.2 ++
          [p.2.checker p.2.opcode p.2.block_a p.2.block_b]).map
            (fun r => DetailedResult.mk r p.1)))).flatten := by
  rw [check_cheat_snd, check_cheat_details_enumFrom]
  rfl

/-- C8: `check_cheat` always returns a pair whose details are bounded by five
per instruction (work bounded by the instruction count) and whose overall
verdict is always one of the three outcome values — every anomaly is a data
value in the details, never a fault. -/
theorem validate_total_bounded (cheat : Cheat) :
    cheat.instructions.length ≤ (check_cheat cheat).2.length ∧
    (check_cheat cheat).2.length ≤ 5 * cheat.instructions.length ∧
    ((check_cheat cheat).1 = CheckResult.Pass ∨
     (check_cheat cheat).1 = CheckResult.Warning "Instruction compiled with warnings." ∨
     (check_cheat cheat).1 = CheckResult.Error 0 "Instruction compiled with errors.") := by
  refine ⟨?_, ?_, ?_⟩
  · rw [check_cheat_snd, check_cheat_details_length]
    omega
  · rw [check_cheat_snd, check_cheat_details_length]
    have := pre_length_sum_le cheat.instructions
    omega
  · rw [check_cheat_fst, final_res_eq]
    split_ifs <;> simp

/-- C9: a single-instruction cheat with blocks `"0GZA7F9C"` and
`"A4B8LF7J8L82JK"` — whatever the opcode and bound rule — never validates as
`Pass`, and its line-0 details contain the wrong-length-B and invalid-hex-A
errors. -/
theorem malformed_scenario_not_pass (op : Opcode) (ck : Checker) :
    (check_cheat ⟨⟨"[Test Cheat]"⟩,
      [⟨op, "0GZA7F9C", "A4B8LF7J8L82JK", ck⟩]⟩).1 ≠ CheckResult.Pass ∧
    DetailedResult.mk (CheckResult.Error WRONG_LENGTH_B.1 WRONG_LENGTH_B.2) 0 ∈
      (check_cheat ⟨⟨"[Test Cheat]"⟩, [⟨op, "0GZA7F9C", "A4B8LF7J8L82JK", ck⟩]⟩).2 ∧
    DetailedResult.mk (CheckResult.Error INVALID_HEX_A.1 INVALID_HEX_A.2) 0 ∈
      (check_cheat ⟨⟨"[Test Cheat]"⟩, [⟨op, "0GZA7F9C", "A4B8LF7J8L82JK", ck⟩]⟩).2 := by
  have hpre : check_instruction_pre ⟨op, "0GZA7F9C", "A4B8LF7J8L82JK", ck⟩ =
      [CheckResult.Error WRONG_LENGTH_B.1 WRONG_LENGTH_B.2,
       CheckResult.Error INVALID_HEX_A.1 INVALID_HEX_A.2,
       CheckResult.Error INVALID_HEX_B.1 INVALID_HEX_B.2] := rfl
  have hget : (⟨⟨"[Test Cheat]"⟩, [⟨op, "0GZA7F9C", "A4B8LF7J8L82JK", ck⟩]⟩ :
      Cheat).instructions.get? 0 = some ⟨op, "0GZA7F9C", "A4B8LF7J8L82JK", ck⟩ := rfl
  have hmem1 : DetailedResult.mk (CheckResult.Error WRONG_LENGTH_B.1 WRONG_LENGTH_B.2) 0 ∈
      (check_cheat ⟨⟨"[Test Cheat]"⟩, [⟨op, "0GZA7F9C", "A4B8LF7J8L82JK", ck⟩]⟩).2 :=
    detail_of_get ⟨⟨"[Test Cheat]"⟩, [⟨op, "0GZA7F9C", "A4B8LF7J8L82JK", ck⟩]⟩ 0
      ⟨op, "0GZA7F9C", "A4B8LF7J8L82JK", ck⟩ hget _
      (List.mem_append_left _ (by rw [hpre]; simp))
  have hmem2 : DetailedResult.mk (CheckResult.Error INVALID_HEX_A.1 INVALID_HEX_A.2) 0 ∈
      (check_cheat ⟨⟨"[Test Cheat]"⟩, [⟨op, "0GZA7F9C", "A4B8LF7J8L82JK", ck⟩]⟩).2 :=
    detail_of_get ⟨⟨"[Test Cheat]"⟩, [⟨op, "0GZA7F9C", "A4B8LF7J8L82JK", ck⟩]⟩ 0
      ⟨op, "0GZA7F9C", "A4B8LF7J8L82JK", ck⟩ hget _
      (List.mem_append_left _ (by rw [hpre]; simp))
  have hfin : (check_cheat ⟨⟨"[Test Cheat]"⟩,
      [⟨op, "0GZA7F9C", "A4B8LF7J8L82JK", ck⟩]⟩).1 =
      CheckResult.Error 0 "Instruction compiled with errors." := by
    rw [check_cheat_fst]
    exact final_res_error_of_mem _ ⟨_, hmem1, rfl⟩
  refine ⟨?_, hmem1, hmem2⟩
  rw [hfin]
  simp

/-- C10: every instruction contributes exactly one opcode-rule detail even
when it is `Pass` — the details length is the instruction count plus the
total number of pre-check errors, hence at least the instruction count, and
a fully valid line still records a `Pass` detail at its line number. -/
theorem rule_always_one_detail (cheat : Cheat) :
    (check_cheat cheat).2.length =
      cheat.instructions.length +
        (cheat.instructions.map (fun i => (check_instruction_pre i).length)).sum ∧
    cheat.instructions.length ≤ (check_cheat cheat).2.length ∧
    (∀ i instr, cheat.instructions.get? i = some instr →
      check_instruction_pre instr = [] →
      instr.checker instr.opcode instr.block_a instr.block_b = CheckResult.Pass →
      DetailedResult.mk CheckResult.Pass i ∈ (check_cheat cheat).2) := by
  refine ⟨?_, ?_, ?_⟩
  · rw [check_cheat_snd, check_cheat_details_length]
  · rw [check_cheat_snd, check_cheat_details_length]
    omega
  · intro i instr hget hpre hpass
    refine detail_of_get cheat i instr hget _ ?_
    rw [instruction_results, hpre, hpass]
    simp

/-- Witness for C10 at a concrete fully valid single-instruction cheat. -/
theorem rule_always_one_detail_witness :
    DetailedResult.mk CheckResult.Pass 0 ∈
      (check_cheat ⟨⟨"[Test Cheat]"⟩,
        [⟨Opcode.EqWord, "0AF2CD18", "CFF2AD4C", AlwaysPassChecker⟩]⟩).2 :=
  (rule_always_one_detail _).2.2 0
    ⟨Opcode.EqWord, "0AF2CD18", "CFF2AD4C", AlwaysPassChecker⟩ rfl (by decide) rfl

end Gateshark
